import Mathlib

/-!
Shallow embedding of the travel-journal backend (Express + Mongoose,
`src/models/Post.ts` and the route-handler file).

The document store (MongoDB/Mongoose) and the media host (Cloudinary) are
external collaborators; the store is modelled as a list of posts with a
store-assigned numeric id (unique, as `_id` is under a unique index), and an
upload attempt is modelled by the outcome the media host would return.
Timestamps are natural numbers; each HTTP request's handling observes a single
current time `now`.
-/

namespace TravelJournal

/-- A persisted journal post.  `title`, `content`, `imageUrl` and `location`
are `Option String` because a Mongoose document can lack any of them (the
update path writes whatever the request carried, including `undefined`);
`tags` is `Option (List String)` (the field can be absent or a string array).
`createdAt` and `updatedAt` are timestamps. -/
structure Post where
  id : Nat
  title : Option String
  content : Option String
  imageUrl : Option String
  location : Option String
  tags : Option (List String)
  createdAt : Nat
  updatedAt : Nat
deriving DecidableEq, Repr

/-- The document store: the post collection plus the next store-assigned id. -/
structure Store where
  posts : List Post
  nextId : Nat
deriving DecidableEq, Repr

/-- The `tags` field of a multipart request body: absent, a single string, or
an array of strings. -/
inductive TagsInput where
  | none
  | one (s : String)
  | many (l : List String)
deriving DecidableEq, Repr

/-- Outcome of the Cloudinary upload for an attached file: a secure URL, or a
thrown error. -/
inductive UploadResult where
  | success (url : String)
  | failure
deriving DecidableEq, Repr

/-- JavaScript falsiness of an optional string field: `!title` is true when
the field is missing or the empty string. -/
def isBlank : Option String → Bool
  | Option.none => true
  | Option.some s => s = ""

/-- Create-path tag normalization, from
`tags ? (Array.isArray(tags) ? tags : [tags]) : []`: an absent or falsy
(empty-string) value becomes `[]`, a bare string is wrapped, an array is kept. -/
def normalizeTags : TagsInput → List String
  | TagsInput.none => []
  | TagsInput.one s => if s = "" then [] else [s]
  | TagsInput.many l => l

/-- Update-path tag value written by `findByIdAndUpdate`: the update document
carries `tags` exactly as the body supplied it (no wrapping in the handler; a
bare string is cast by the schema `[{ type: String }]` to a one-element
array), and an absent body field is written as absent. -/
def castTags : TagsInput → Option (List String)
  | TagsInput.none => Option.none
  | TagsInput.one s => Option.some [s]
  | TagsInput.many l => Option.some l

/-- `POST /api/posts` request body plus the optional attached file; when a
file is attached, the constructor records what the media host would answer. -/
structure CreateRequest where
  title : Option String
  content : Option String
  location : Option String
  tags : TagsInput
  file : Option UploadResult
deriving DecidableEq, Repr

/-- Response of the create handler: 201 with the saved post, or 400. -/
inductive CreateResponse where
  | created (p : Post)
  | badRequest (msg : String)
deriving DecidableEq, Repr

/-- Result of one run of the create handler: the HTTP response, the store
afterwards, and whether an upload to the media host was attempted. -/
structure CreateOutcome where
  resp : CreateResponse
  store : Store
  uploadAttempted : Bool
deriving DecidableEq, Repr

/-- The new document built by `new Post({...})` then saved: defaults give
`createdAt = now`, and the pre-save hook sets `updatedAt` to the save time
(the same request's `now`).  The id is store-assigned. -/
def mkPost (req : CreateRequest) (st : Store) (now : Nat) (img : Option String) : Post :=
  { id := st.nextId
    title := req.title
    content := req.content
    imageUrl := img
    location := req.location
    tags := Option.some (normalizeTags req.tags)
    createdAt := now
    updatedAt := now }

/-- Append a saved post to the collection and advance the id counter. -/
def pushPost (st : Store) (p : Post) : Store :=
  { posts := st.posts ++ [p], nextId := st.nextId + 1 }

/-- `POST /api/posts` handler.  Validation (`!title || !content`) runs before
the try block, so before any upload; a file, when present, is uploaded first
and a thrown upload error is caught as a 400 with nothing persisted;
otherwise the document is constructed and saved. -/
def createPost (req : CreateRequest) (st : Store) (now : Nat) : CreateOutcome :=
  if isBlank req.title || isBlank req.content then
    { resp := CreateResponse.badRequest "Title and content are required"
      store := st
      uploadAttempted := false }
  else
    match req.file with
    | Option.some UploadResult.failure =>
        { resp := CreateResponse.badRequest "Failed to create post"
          store := st
          uploadAttempted := true }
    | Option.some (UploadResult.success url) =>
        let p := mkPost req st now (Option.some url)
        { resp := CreateResponse.created p
          store := pushPost st p
          uploadAttempted := true }
    | Option.none =>
        let p := mkPost req st now Option.none
        { resp := CreateResponse.created p
          store := pushPost st p
          uploadAttempted := false }

/-- `findById`: the store holds at most one post per id (`_id` is unique). -/
def findPost (posts : List Post) (id : Nat) : Option Post :=
  posts.find? (fun p => p.id = id)

/-- Replace the post with the given id by `q` (the store writes the update to
the matching document). -/
def setPost (posts : List Post) (id : Nat) (q : Post) : List Post :=
  posts.map (fun p => if p.id = id then q else p)

/-- `imageUrl = req.body.imageUrl || existingPost.imageUrl`: JavaScript `||`
falls back when the body value is absent or the empty string. -/
def imageUrlFallback : Option String → Option String → Option String
  | Option.some s, old => if s = "" then old else Option.some s
  | Option.none, old => old

/-- `PUT /api/posts/:id` request body plus the optional attached file. -/
structure UpdateRequest where
  title : Option String
  content : Option String
  imageUrl : Option String
  location : Option String
  tags : TagsInput
  file : Option UploadResult
deriving DecidableEq, Repr

/-- Response of the update handler: 200 with the post-update record, 404, or
400 (upload failure). -/
inductive UpdateResponse where
  | ok (p : Post)
  | notFound
  | badRequest (msg : String)
deriving DecidableEq, Repr

/-- The update document `{ title, content, imageUrl, location, tags,
updatedAt: new Date() }` applied by `findByIdAndUpdate`: it always carries all
five field keys exactly as the handler computed them, so the named fields are
replaced wholesale (an omitted body field is written as absent); `id` and
`createdAt` are not in the document and stay untouched. -/
def applyUpdate (existing : Post) (req : UpdateRequest) (img : Option String)
    (now : Nat) : Post :=
  { existing with
    title := req.title
    content := req.content
    imageUrl := img
    location := req.location
    tags := castTags req.tags
    updatedAt := now }

/-- `PUT /api/posts/:id` handler: 404 when the id has no post; otherwise an
attached file is uploaded (a thrown upload error is caught as 400 with
nothing persisted), and without a file the body `imageUrl` falls back to the
existing one; then `findByIdAndUpdate` writes the update document. -/
def updatePost (id : Nat) (req : UpdateRequest) (st : Store) (now : Nat) :
    UpdateResponse × Store :=
  match findPost st.posts id with
  | Option.none => (UpdateResponse.notFound, st)
  | Option.some existing =>
    match req.file with
    | Option.some UploadResult.failure =>
        (UpdateResponse.badRequest "Failed to update post", st)
    | Option.some (UploadResult.success url) =>
        let u := applyUpdate existing req (Option.some url) now
        (UpdateResponse.ok u, { st with posts := setPost st.posts id u })
    | Option.none =>
        let u := applyUpdate existing req
          (imageUrlFallback req.imageUrl existing.imageUrl) now
        (UpdateResponse.ok u, { st with posts := setPost st.posts id u })

/-- Response of the delete handler: 200 with a confirmation message, or 404. -/
inductive DeleteResponse where
  | ok (msg : String)
  | notFound
deriving DecidableEq, Repr

/-- `DELETE /api/posts/:id` handler: `findByIdAndDelete` removes the document
with the given id (ids are unique in the store) and answers 404 when none
matches. -/
def deletePost (id : Nat) (st : Store) : DeleteResponse × Store :=
  match findPost st.posts id with
  | Option.none => (DeleteResponse.notFound, st)
  | Option.some _ =>
      (DeleteResponse.ok "Post deleted successfully",
       { st with posts := st.posts.filter (fun p => p.id ≠ id) })

/-- Boolean test that `pat` occurs at the head of `l`. -/
def isPrefixL : List Char → List Char → Bool
  | [], _ => true
  | _ :: _, [] => false
  | a :: as, b :: bs => a = b && isPrefixL as bs

/-- Boolean test that `pat` occurs contiguously inside the second list. -/
def containsSub (pat : List Char) : List Char → Bool
  | [] => pat.isEmpty
  | a :: rest => isPrefixL pat (a :: rest) || containsSub pat rest

/-- Case-insensitive substring test: the semantics of testing the literal
search term, compiled by `new RegExp(term, i-flag)`, against a string (the
regular-expression engine itself is external to this repository). -/
def ciSubstr (term s : String) : Bool :=
  containsSub term.toLower.data s.toLower.data

/-- A `$regex` condition on an optional scalar field: an absent field never
matches. -/
def fieldMatches (term : String) : Option String → Bool
  | Option.none => false
  | Option.some s => ciSubstr term s

/-- A `$regex` condition on the `tags` array field: the store's native
behavior matches when any element matches; an absent or empty array does not. -/
def tagsMatches (term : String) : Option (List String) → Bool
  | Option.none => false
  | Option.some l => l.any (fun t => ciSubstr term t)

/-- The `query.$or` filter over title, content, location and tags. -/
def postMatches (term : String) (p : Post) : Bool :=
  fieldMatches term p.title || fieldMatches term p.content ||
    fieldMatches term p.location || tagsMatches term p.tags

/-- The effective filter term: `if (search)` treats an absent or empty
`search` query parameter as no filter; otherwise the term is trimmed. -/
def searchQuery : Option String → Option String
  | Option.none => Option.none
  | Option.some s => if s = "" then Option.none else Option.some s.trim

/-- Sort relation of `.sort(createdAt: -1)`: newest first. -/
def newestFirst (a b : Post) : Prop :=
  b.createdAt ≤ a.createdAt

instance : DecidableRel newestFirst :=
  fun a b => (inferInstance : Decidable (b.createdAt ≤ a.createdAt))

instance : IsTotal Post newestFirst :=
  ⟨fun a b => Nat.le_total b.createdAt a.createdAt⟩

instance : IsTrans Post newestFirst :=
  ⟨fun _ _ _ h1 h2 => Nat.le_trans h2 h1⟩

/-- `GET /api/posts` handler: filter by the optional search term, then sort
by `createdAt` descending. -/
def listPosts (search : Option String) (st : Store) : List Post :=
  let filtered :=
    match searchQuery search with
    | Option.none => st.posts
    | Option.some term => st.posts.filter (postMatches term)
  List.insertionSort newestFirst filtered

/-- The `$unwind` stage: every tag occurrence across the collection, in
order; a post with an absent tags field contributes nothing. -/
def allTags (st : Store) : List String :=
  st.posts.foldr (fun p acc => p.tags.getD [] ++ acc) []

/-- `GET /api/tags` aggregation: unwind, group (distinct values), sort
ascending. -/
def listTags (st : Store) : List String :=
  List.insertionSort (fun a b : String => a ≤ b) (allTags st).dedup

/-- The tags route handler: it only reads the store. -/
def getTags (st : Store) : List String × Store :=
  (listTags st, st)

/-- Timestamp invariant over the collection. -/
def tsInv (st : Store) : Prop :=
  ∀ p ∈ st.posts, p.createdAt ≤ p.updatedAt

/-! ### Concrete fixtures used as witness inputs -/

def postA : Post :=
  { id := 1
    title := Option.some "Trip to Paris"
    content := Option.some "We saw the tower"
    imageUrl := Option.some "https://img.example/1.jpg"
    location := Option.some "Paris, France"
    tags := Option.some ["europe", "paris"]
    createdAt := 3
    updatedAt := 3 }

def postB : Post :=
  { id := 2
    title := Option.some "Kyoto"
    content := Option.some "temples"
    imageUrl := Option.none
    location := Option.none
    tags := Option.some ["asia", "temple", "asia"]
    createdAt := 5
    updatedAt := 6 }

def demoStore : Store := { posts := [postA, postB], nextId := 3 }

def reqOmitAll : UpdateRequest :=
  { title := Option.none
    content := Option.none
    imageUrl := Option.none
    location := Option.none
    tags := TagsInput.none
    file := Option.none }

/-! ### Helper lemmas -/

theorem findPost_id_eq {posts : List Post} {id : Nat} {p : Post}
    (h : findPost posts id = Option.some p) : p.id = id := by
  have := List.find?_some h
  simpa using this

theorem findPost_mem {posts : List Post} {id : Nat} {p : Post}
    (h : findPost posts id = Option.some p) : p ∈ posts :=
  List.mem_of_find?_eq_some h

theorem findPost_setPost (posts : List Post) (id : Nat) (q : Post)
    (hq : q.id = id) {p : Post} (hfind : findPost posts id = Option.some p) :
    findPost (setPost posts id q) id = Option.some q := by
  induction posts with
  | nil => simp [findPost] at hfind
  | cons a rest ih =>
    by_cases h : a.id = id
    · simp [findPost, setPost, h, hq]
    · simp only [findPost, setPost, List.map_cons, if_neg h] at hfind ⊢
      rw [List.find?_cons_of_neg _ (by simpa using h)] at hfind
      rw [List.find?_cons_of_neg _ (by simpa using h)]
      exact ih hfind

theorem findPost_filter_ne (posts : List Post) (id : Nat) :
    findPost (posts.filter (fun p => p.id ≠ id)) id = Option.none := by
  rw [findPost, List.find?_eq_none]
  intro x hx
  simp only [List.mem_filter] at hx
  simpa using hx.2

/-! ### Claim theorems -/

/-- Claim C2: a create request whose title or content is blank (missing or
empty) gets a 400 validation failure, the store is unchanged, and no upload
to the media host is attempted. -/
theorem create_blank_rejected
    (req : CreateRequest) (st : Store) (now : Nat)
    (h : isBlank req.title = true ∨ isBlank req.content = true) :
    (createPost req st now).resp =
        CreateResponse.badRequest "Title and content are required" ∧
    (createPost req st now).store = st ∧
    (createPost req st now).uploadAttempted = false := by
  have hcond : (isBlank req.title || isBlank req.content) = true := by
    rcases h with h | h <;> simp [h]
  simp [createPost, hcond]

theorem create_blank_rejected_witness :
    (createPost
        { title := Option.some ""
          content := Option.some "stuff"
          location := Option.none
          tags := TagsInput.none
          file := Option.some (UploadResult.success "https://img.example/x.jpg") }
        demoStore 7).resp =
        CreateResponse.badRequest "Title and content are required" ∧
    (createPost
        { title := Option.some ""
          content := Option.some "stuff"
          location := Option.none
          tags := TagsInput.none
          file := Option.some (UploadResult.success "https://img.example/x.jpg") }
        demoStore 7).store = demoStore ∧
    (createPost
        { title := Option.some ""
          content := Option.some "stuff"
          location := Option.none
          tags := TagsInput.none
          file := Option.some (UploadResult.success "https://img.example/x.jpg") }
        demoStore 7).uploadAttempted = false :=
  create_blank_rejected _ demoStore 7 (Or.inl rfl)

/-- Claim C4: a create request carrying a file whose upload fails aborts with
a failure response and persists no record. -/
theorem create_upload_failure_aborts
    (req : CreateRequest) (st : Store) (now : Nat)
    (hfile : req.file = Option.some UploadResult.failure) :
    (∃ msg, (createPost req st now).resp = CreateResponse.badRequest msg) ∧
    (createPost req st now).store = st := by
  by_cases hb : (isBlank req.title || isBlank req.content) = true
  · exact ⟨⟨"Title and content are required", by simp [createPost, hb]⟩,
      by simp [createPost, hb]⟩
  · exact ⟨⟨"Failed to create post", by simp [createPost, hb, hfile]⟩,
      by simp [createPost, hb, hfile]⟩

theorem create_upload_failure_aborts_witness :
    (∃ msg, (createPost
        { title := Option.some "Alps"
          content := Option.some "snow"
          location := Option.none
          tags := TagsInput.none
          file := Option.some UploadResult.failure }
        demoStore 7).resp = CreateResponse.badRequest msg) ∧
    (createPost
        { title := Option.some "Alps"
          content := Option.some "snow"
          location := Option.none
          tags := TagsInput.none
          file := Option.some UploadResult.failure }
        demoStore 7).store = demoStore :=
  create_upload_failure_aborts _ demoStore 7 rfl

/-- Claim C1: every update on an existing post — with a file attached (and
its upload succeeding) or without one — replaces title, content, imageUrl,
location and tags wholesale: each of title, content, location and tags is
written exactly as the request supplied it (so an omitted field is stored as
absent, not preserved), and only imageUrl has a fallback, taken when no file
is attached; a file-attached update stores the uploaded URL.  The only
excluded run is a failed upload, which aborts the operation before any write. -/
theorem update_full_replacement
    (id : Nat) (req : UpdateRequest) (st : Store) (now : Nat) (existing : Post)
    (hfind : findPost st.posts id = Option.some existing)
    (hfile : req.file ≠ Option.some UploadResult.failure) :
    ∃ u : Post,
      (updatePost id req st now).1 = UpdateResponse.ok u ∧
      findPost (updatePost id req st now).2.posts id = Option.some u ∧
      u.title = req.title ∧ u.content = req.content ∧
      u.location = req.location ∧ u.tags = castTags req.tags ∧
      u.imageUrl =
        (match req.file with
         | Option.some (UploadResult.success url) => Option.some url
         | _ => imageUrlFallback req.imageUrl existing.imageUrl) := by
  have hid : existing.id = id := findPost_id_eq hfind
  rcases hf : req.file with _ | f
  · refine ⟨applyUpdate existing req (imageUrlFallback req.imageUrl existing.imageUrl) now,
      ?_, ?_, rfl, rfl, rfl, rfl, ?_⟩
    · simp [updatePost, hfind, hf]
    · simp only [updatePost, hfind, hf]
      exact findPost_setPost st.posts id _ (by simpa [applyUpdate] using hid) hfind
    · simp [applyUpdate, hf]
  · cases f with
    | success url =>
      refine ⟨applyUpdate existing req (Option.some url) now,
        ?_, ?_, rfl, rfl, rfl, rfl, ?_⟩
      · simp [updatePost, hfind, hf]
      · simp only [updatePost, hfind, hf]
        exact findPost_setPost st.posts id _ (by simpa [applyUpdate] using hid) hfind
      · simp [applyUpdate, hf]
    | failure => exact absurd hf hfile

def reqWithFile : UpdateRequest :=
  { title := Option.none
    content := Option.none
    imageUrl := Option.none
    location := Option.none
    tags := TagsInput.none
    file := Option.some (UploadResult.success "https://img.example/new.jpg") }

theorem update_full_replacement_witness :
    ∃ u : Post,
      (updatePost 1 reqWithFile demoStore 9).1 = UpdateResponse.ok u ∧
      findPost (updatePost 1 reqWithFile demoStore 9).2.posts 1 = Option.some u ∧
      u.title = reqWithFile.title ∧ u.content = reqWithFile.content ∧
      u.location = reqWithFile.location ∧ u.tags = castTags reqWithFile.tags ∧
      u.imageUrl =
        (match reqWithFile.file with
         | Option.some (UploadResult.success url) => Option.some url
         | _ => imageUrlFallback reqWithFile.imageUrl postA.imageUrl) :=
  update_full_replacement 1 reqWithFile demoStore 9 postA rfl (by decide)

/-- Claim C5: an update with no file attached and no imageUrl in the body
leaves the stored imageUrl exactly as it was. -/
theorem update_imageUrl_preserved
    (id : Nat) (req : UpdateRequest) (st : Store) (now : Nat) (existing : Post)
    (hfind : findPost st.posts id = Option.some existing)
    (hfile : req.file = Option.none)
    (hbody : req.imageUrl = Option.none) :
    ∃ u : Post,
      (updatePost id req st now).1 = UpdateResponse.ok u ∧
      findPost (updatePost id req st now).2.posts id = Option.some u ∧
      u.imageUrl = existing.imageUrl := by
  have hid : existing.id = id := findPost_id_eq hfind
  refine ⟨applyUpdate existing req (imageUrlFallback req.imageUrl existing.imageUrl) now,
    ?_, ?_, ?_⟩
  · simp [updatePost, hfind, hfile]
  · simp only [updatePost, hfind, hfile]
    exact findPost_setPost st.posts id _ (by simpa [applyUpdate] using hid) hfind
  · simp [applyUpdate, imageUrlFallback, hbody]

def reqNoImage : UpdateRequest :=
  { title := Option.some "New title"
    content := Option.some "New content"
    imageUrl := Option.none
    location := Option.some "Lyon"
    tags := TagsInput.many ["france"]
    file := Option.none }

theorem update_imageUrl_preserved_witness :
    ∃ u : Post,
      (updatePost 1 reqNoImage demoStore 9).1 = UpdateResponse.ok u ∧
      findPost (updatePost 1 reqNoImage demoStore 9).2.posts 1 = Option.some u ∧
      u.imageUrl = postA.imageUrl :=
  update_imageUrl_preserved 1 reqNoImage demoStore 9 postA rfl rfl rfl

/-- Claim C10: an update with no file whose body carries imageUrl as the
empty string keeps the existing imageUrl — the JavaScript or-fallback treats
the empty string as absent. -/
theorem update_empty_imageUrl_falls_back
    (id : Nat) (req : UpdateRequest) (st : Store) (now : Nat) (existing : Post)
    (hfind : findPost st.posts id = Option.some existing)
    (hfile : req.file = Option.none)
    (hbody : req.imageUrl = Option.some "") :
    ∃ u : Post,
      (updatePost id req st now).1 = UpdateResponse.ok u ∧
      findPost (updatePost id req st now).2.posts id = Option.some u ∧
      u.imageUrl = existing.imageUrl := by
  have hid : existing.id = id := findPost_id_eq hfind
  refine ⟨applyUpdate existing req (imageUrlFallback req.imageUrl existing.imageUrl) now,
    ?_, ?_, ?_⟩
  · simp [updatePost, hfind, hfile]
  · simp only [updatePost, hfind, hfile]
    exact findPost_setPost st.posts id _ (by simpa [applyUpdate] using hid) hfind
  · simp [applyUpdate, imageUrlFallback, hbody]

def reqEmptyImage : UpdateRequest :=
  { title := Option.some "New title"
    content := Option.some "New content"
    imageUrl := Option.some ""
    location := Option.none
    tags := TagsInput.none
    file := Option.none }

theorem update_empty_imageUrl_falls_back_witness :
    ∃ u : Post,
      (updatePost 1 reqEmptyImage demoStore 9).1 = UpdateResponse.ok u ∧
      findPost (updatePost 1 reqEmptyImage demoStore 9).2.posts 1 = Option.some u ∧
      u.imageUrl = postA.imageUrl :=
  update_empty_imageUrl_falls_back 1 reqEmptyImage demoStore 9 postA rfl rfl rfl

/-- Claim C6: with a search term present, the term is trimmed and the listing
holds exactly the records where the trimmed term appears case-insensitively
as a substring of title, content, location, or any tag element. -/
theorem list_search_exact
    (st : Store) (s : String) (hs : s ≠ "") (p : Post) :
    p ∈ listPosts (Option.some s) st ↔
      p ∈ st.posts ∧
        (fieldMatches s.trim p.title || fieldMatches s.trim p.content ||
          fieldMatches s.trim p.location || tagsMatches s.trim p.tags) = true := by
  simp [listPosts, searchQuery, hs, List.mem_filter, postMatches]

theorem list_search_exact_witness :
    postA ∈ listPosts (Option.some "  PARIS ") demoStore ↔
      postA ∈ demoStore.posts ∧
        (fieldMatches "  PARIS ".trim postA.title ||
          fieldMatches "  PARIS ".trim postA.content ||
          fieldMatches "  PARIS ".trim postA.location ||
          tagsMatches "  PARIS ".trim postA.tags) = true :=
  list_search_exact demoStore "  PARIS " (by decide) postA

/-- Claim C7: with no search parameter the listing holds every record of the
collection, and with or without a search term the listing is ordered by
createdAt descending. -/
theorem list_all_and_sorted (st : Store) :
    (listPosts Option.none st).Perm st.posts ∧
    ∀ search : Option String, List.Sorted newestFirst (listPosts search st) := by
  constructor
  · simpa [listPosts, searchQuery] using
      List.perm_insertionSort newestFirst st.posts
  · intro search
    exact List.sorted_insertionSort newestFirst _

/-- Claim C8: the tag listing is read-only, holds each tag value occurring in
any record exactly once (no duplicates), is sorted alphabetically, and a tag
appears in it exactly when it occurs somewhere in the collection. -/
theorem tags_listing_distinct_sorted (st : Store) :
    (getTags st).2 = st ∧
    (listTags st).Nodup ∧
    List.Sorted (fun a b : String => a ≤ b) (listTags st) ∧
    ∀ t : String, t ∈ listTags st ↔ t ∈ allTags st := by
  refine ⟨rfl, ?_, ?_, ?_⟩
  · exact ((List.perm_insertionSort _ _).nodup_iff).mpr (List.nodup_dedup _)
  · exact List.sorted_insertionSort _ _
  · intro t
    simp [listTags]

/-- Claim C9: deleting an id with no matching record answers not-found and
leaves the collection unchanged; deleting an existing id answers the
confirmation, removes the record with that id, and keeps every other
record. -/
theorem delete_found_and_notFound (id : Nat) (st : Store) :
    (findPost st.posts id = Option.none →
      (deletePost id st).1 = DeleteResponse.notFound ∧
      (deletePost id st).2 = st) ∧
    (∀ existing : Post, findPost st.posts id = Option.some existing →
      (deletePost id st).1 = DeleteResponse.ok "Post deleted successfully" ∧
      findPost (deletePost id st).2.posts id = Option.none ∧
      ∀ q ∈ st.posts, q.id ≠ id → q ∈ (deletePost id st).2.posts) := by
  constructor
  · intro h
    exact ⟨by simp [deletePost, h], by simp [deletePost, h]⟩
  · intro existing h
    refine ⟨by simp [deletePost, h], ?_, ?_⟩
    · simp only [deletePost, h]
      exact findPost_filter_ne st.posts id
    · intro q hq hne
      simp only [deletePost, h]
      simp [List.mem_filter, hq, hne]

theorem delete_found_and_notFound_witness :
    (deletePost 1 demoStore).1 = DeleteResponse.ok "Post deleted successfully" ∧
    findPost (deletePost 1 demoStore).2.posts 1 = Option.none ∧
    ∀ q ∈ demoStore.posts, q.id ≠ 1 → q ∈ (deletePost 1 demoStore).2.posts :=
  (delete_found_and_notFound 1 demoStore).2 postA rfl

/-- Claim C3: a created post has createdAt equal to updatedAt (both the
creation time); a successful update at a later time strictly increases
updatedAt; and the invariant createdAt less-or-equal updatedAt is preserved
by create, by update (when the clock has not gone backwards), and by
delete. -/
theorem timestamps_spec :
    (∀ (req : CreateRequest) (st : Store) (now : Nat) (p : Post),
        (createPost req st now).resp = CreateResponse.created p →
        p.createdAt = now ∧ p.updatedAt = now) ∧
    (∀ (id : Nat) (req : UpdateRequest) (st : Store) (now : Nat)
        (existing u : Post),
        findPost st.posts id = Option.some existing →
        existing.updatedAt < now →
        (updatePost id req st now).1 = UpdateResponse.ok u →
        existing.updatedAt < u.updatedAt) ∧
    (∀ (req : CreateRequest) (st : Store) (now : Nat),
        tsInv st → tsInv (createPost req st now).store) ∧
    (∀ (id : Nat) (req : UpdateRequest) (st : Store) (now : Nat),
        tsInv st → (∀ p ∈ st.posts, p.updatedAt ≤ now) →
        tsInv (updatePost id req st now).2) ∧
    (∀ (id : Nat) (st : Store), tsInv st → tsInv (deletePost id st).2) := by
  refine ⟨?_, ?_, ?_, ?_, ?_⟩
  · intro req st now p hp
    by_cases hb : (isBlank req.title || isBlank req.content) = true
    · simp [createPost, hb] at hp
    · rcases hf : req.file with _ | f
      · simp [createPost, hb, hf] at hp
        subst hp
        exact ⟨rfl, rfl⟩
      · cases f with
        | success url =>
          simp [createPost, hb, hf] at hp
          subst hp
          exact ⟨rfl, rfl⟩
        | failure => simp [createPost, hb, hf] at hp
  · intro id req st now existing u hfind hlt hu
    rcases hf : req.file with _ | f
    · simp [updatePost, hfind, hf] at hu
      subst hu
      simpa [applyUpdate] using hlt
    · cases f with
      | success url =>
        simp [updatePost, hfind, hf] at hu
        subst hu
        simpa [applyUpdate] using hlt
      | failure => simp [updatePost, hfind, hf] at hu
  · intro req st now hinv
    by_cases hb : (isBlank req.title || isBlank req.content) = true
    · simpa [createPost, hb] using hinv
    · rcases hf : req.file with _ | f
      · intro q hq
        simp [createPost, hb, hf, pushPost] at hq
        rcases hq with hq | hq
        · exact hinv q hq
        · subst hq
          simp [mkPost]
      · cases f with
        | success url =>
          intro q hq
          simp [createPost, hb, hf, pushPost] at hq
          rcases hq with hq | hq
          · exact hinv q hq
          · subst hq
            simp [mkPost]
        | failure => simpa [createPost, hb, hf] using hinv
  · intro id req st now hinv hle
    rcases hfind : findPost st.posts id with _ | existing
    · simpa [updatePost, hfind] using hinv
    · have hmem := findPost_mem hfind
      rcases hf : req.file with _ | f
      · intro q hq
        simp [updatePost, hfind, hf, setPost] at hq
        rcases hq with ⟨p, hp, hpq⟩
        by_cases hpid : p.id = id
        · rw [if_pos hpid] at hpq
          subst hpq
          simp only [applyUpdate]
          exact Nat.le_trans (hinv existing hmem) (hle existing hmem)
        · rw [if_neg hpid] at hpq
          subst hpq
          exact hinv p hp
      · cases f with
        | success url =>
          intro q hq
          simp [updatePost, hfind, hf, setPost] at hq
          rcases hq with ⟨p, hp, hpq⟩
          by_cases hpid : p.id = id
          · rw [if_pos hpid] at hpq
            subst hpq
            simp only [applyUpdate]
            exact Nat.le_trans (hinv existing hmem) (hle existing hmem)
          · rw [if_neg hpid] at hpq
            subst hpq
            exact hinv p hp
        | failure => simpa [updatePost, hfind, hf] using hinv
  · intro id st hinv
    rcases h : findPost st.posts id with _ | p
    · simpa [deletePost, h] using hinv
    · intro q hq
      simp [deletePost, h, List.mem_filter] at hq
      exact hinv q hq.1

theorem timestamps_spec_witness :
    postA.updatedAt <
      (applyUpdate postA reqOmitAll
        (imageUrlFallback reqOmitAll.imageUrl postA.imageUrl) 9).updatedAt :=
  timestamps_spec.2.1 1 reqOmitAll demoStore 9 postA
    (applyUpdate postA reqOmitAll
      (imageUrlFallback reqOmitAll.imageUrl postA.imageUrl) 9)
    rfl (by decide) rfl

end TravelJournal
